import Mathlib

/-!
Verification of the Olik-NG Angular adapter (src/projects/olik-ng/src/lib/olik-ng.module.ts).
The module adapts the Olik state library to rxjs observables: selection and derivation
observe methods, the future status stream asObservableFuture, the component observable
combiner combineComponentObservables, the async bridge, and the one-time augmentation flag.
Pure parts are embedded as Lean functions; the subscription lifecycles are embedded as
explicit traces of subscriber-visible events, with the mutable flags of the source
(running, coreHasBeenAgmented) threaded as explicit state.
-/

namespace OlikNg

/-- Events delivered to an rxjs subscriber: observer.next carries a value; observer.complete
and observer.error are terminal notifications. The adapter source under scrutiny calls
observer.next only; complete and error are present so their absence is expressible. -/
inductive Event (α : Type) where
  | next (value : α)
  | complete
  | error
  deriving DecidableEq, Repr

/-- Modelled from the spec: the outcome of the asynchronous update underlying an Olik
future, which settles exactly once, either fulfilled with a payload or rejected with a
reason. The Olik core library is an external dependency and is not part of src. -/
inductive Outcome (α ε : Type) where
  | resolved (payload : α)
  | rejected (reason : ε)
  deriving DecidableEq, Repr

/-- The FutureState value returned by getFutureState of the external library,
as described by the spec and exercised by the tests in src/projects/olik-ng/test. -/
structure FutureState (α ε : Type) where
  isLoading : Bool
  wasResolved : Bool
  wasRejected : Bool
  error : Option ε
  storeValue : α
  deriving DecidableEq, Repr

/-- Modelled from the spec: a future carries the store value observed at subscription
time (possibly already changed by an optimistic update) and its eventual outcome. -/
structure Future (α ε : Type) where
  preUpdateValue : α
  outcome : Outcome α ε
  deriving DecidableEq, Repr

/-- Modelled from the spec: getFutureState before the future settles reports loading,
neither resolved nor rejected, no error, and the current store value. -/
def Future.pendingState (f : Future α ε) : FutureState α ε :=
  ⟨true, false, false, none, f.preUpdateValue⟩

/-- Modelled from the spec: getFutureState after settlement. On fulfilment the update
commits, so the store value is the resolved payload; on rejection the update does not
commit, so the store value is the pre-update value and the error is the reason. -/
def Future.settledState (f : Future α ε) : FutureState α ε :=
  match f.outcome with
  | .resolved v => ⟨false, true, false, none, v⟩
  | .rejected e => ⟨false, false, true, some e, f.preUpdateValue⟩

/-- Modelled from the spec: the commit performed by the external library when the
future settles. Fulfilment replaces the store value with the payload; rejection
leaves the store value unchanged. -/
def Future.commit (f : Future α ε) (current : α) : α :=
  match f.outcome with
  | .resolved v => v
  | .rejected _ => current

/-- Actions that can reach a live subscription of the status stream after it is set up:
the subscriber may unsubscribe, and the underlying promise may settle. -/
inductive FAction where
  | unsubscribe
  | settle
  deriving DecidableEq, Repr

/-- State of one subscription of future.asObservableFuture: the running flag of the
source closure, the committed store value, and the events emitted to the subscriber. -/
structure FutureSub (α ε : Type) where
  running : Bool
  storeValue : α
  emitted : List (Event (FutureState α ε))
  deriving DecidableEq, Repr

/-- Embedding of the subscribe function of future.asObservableFuture
(olik-ng.module.ts lines 109 to 121): it calls input.asPromise, starting the work,
immediately emits getFutureState via observer.next, and sets running to true. -/
def futureSubInit (f : Future α ε) : FutureSub α ε :=
  ⟨true, f.preUpdateValue, [Event.next f.pendingState]⟩

/-- Embedding of the two transitions of a live subscription. The teardown returned by
the subscribe function only sets running to false; it does not abort the promise.
Settlement commits the update through the external library regardless of the running
flag, and the then or catch handler emits getFutureState again only when running still
holds. The source contains no observer.complete and no observer.error call. -/
def futureStep (f : Future α ε) (st : FutureSub α ε) : FAction → FutureSub α ε
  | .unsubscribe => { st with running := false }
  | .settle =>
      { running := st.running
        storeValue := f.commit st.storeValue
        emitted := st.emitted ++ (if st.running then [Event.next f.settledState] else []) }

/-- One subscription of the status stream, run over a list of actions in time order. -/
def futureRun (f : Future α ε) (actions : List FAction) : FutureSub α ε :=
  actions.foldl (futureStep f) (futureSubInit f)

/-- Modelled from the spec: a selection of the external state library at subscription
time. It exposes a current value through a read path into the store state, and a
change subscription; each subsequent mutation of the store fires every registered
change listener with the newly selected value. The mutations that follow the
subscription are listed in order. -/
structure Selection (σ α : Type) where
  state : σ
  select : σ → α
  updates : List (σ → σ)

/-- The store states reached after each successive update, in order. -/
def statesAfter (s : σ) : List (σ → σ) → List σ
  | [] => []
  | u :: rest => u s :: statesAfter (u s) rest

/-- The store state reached after applying a list of updates. -/
def applyAll (s : σ) (us : List (σ → σ)) : σ :=
  us.foldl (fun t u => u t) s

/-- Embedding of selection.observe (olik-ng.module.ts lines 102 to 106): on subscribe
the observer immediately receives selection.read(), then the onChange listener forwards
each newly selected value to the observer, one emission per mutation. -/
def observeTrace (sel : Selection σ α) : List (Event α) :=
  Event.next (sel.select sel.state) ::
    (statesAfter sel.state sel.updates).map (fun st => Event.next (sel.select st))

/-- The same selection observed by a subscriber that arrives only after the first k
mutations have happened: its current state has advanced and only the later mutations
remain to be seen. -/
def Selection.afterMutations (sel : Selection σ α) (k : Nat) : Selection σ α :=
  ⟨applyAll sel.state (sel.updates.take k), sel.select, sel.updates.drop k⟩

/-- Values a field of a component instance can hold, as discriminated by the filter of
combineComponentObservables: a plain value, an rxjs Observable that is not an
EventEmitter, or an Angular EventEmitter (which extends Observable). -/
inductive FieldValue (α : Type) where
  | plain (v : α)
  | stream
  | emitter
  deriving DecidableEq, Repr

/-- The instanceof Observable test of the source filter; EventEmitter extends
Observable in Angular, so event emitters pass this test. -/
def instanceofObservable : FieldValue α → Bool
  | .plain _ => false
  | .stream => true
  | .emitter => true

/-- The instanceof EventEmitter test of the source filter. -/
def instanceofEventEmitter : FieldValue α → Bool
  | .emitter => true
  | _ => false

/-- A component instance, as seen through Object.keys: its own enumerable fields in
enumeration order, each with its current value. -/
structure Component (α : Type) where
  fields : List (String × FieldValue α)

/-- Embedding of olik-ng.module.ts lines 80 to 81: the keys of the component whose
value is an Observable and not an EventEmitter, in enumeration order. -/
def keysOfObservableMembers (c : Component α) : List String :=
  (c.fields.filter
    (fun kv => instanceofObservable kv.2 && !instanceofEventEmitter kv.2)).map Prod.fst

/-- The snapshot object built by the map stage (lines 86 to 87): result gets one entry
per filtered key, assigned the latest value of the corresponding constituent. -/
def buildSnapshot (keys : List String) (values : List α) : List (String × α) :=
  keys.zip values

/-- Modelled from the spec: rxjs combineLatest over n constituent streams. The
interleaving of the constituents is a schedule: the list of pairs of constituent index
and emitted value, in the order the emissions occur. combineLatest keeps the latest
value of each slot and, once every slot is filled, emits the list of latest values on
every constituent emission. -/
def combineLatestEmissions : List (Nat × α) → List (Option α) → List (List α)
  | [], _ => []
  | (i, v) :: rest, latest =>
      let latest2 := latest.set i (some v)
      (if latest2.all Option.isSome then [latest2.filterMap id] else []) ++
        combineLatestEmissions rest latest2

/-- State threaded through the map stage of combineComponentObservables: the snapshot
objects allocated so far in allocation order (the heap of result objects), the value
property of the returned stream, the dollar-observables property written onto the
component instance, and the downstream deliveries, each recorded together with the
value property as it stood at delivery time. -/
structure CombinedState (α : Type) where
  snapshots : List (List (String × α))
  valueProp : Option (List (String × α))
  observablesProp : Option (List (String × α))
  delivered : List (List (String × α) × Option (List (String × α)))
  deriving DecidableEq, Repr

/-- Embedding of the map stage (olik-ng.module.ts lines 85 to 91) for one combined
emission, following the statement order of the source: a fresh result object is
allocated and filled, then assigned to the dollar-observables property of the
component, then to the value property of the returned stream, and only then is the
result returned, delivering it downstream. -/
def mapStep (keys : List String) (st : CombinedState α) (values : List α) :
    CombinedState α :=
  let result := buildSnapshot keys values
  let st1 : CombinedState α := { st with snapshots := st.snapshots ++ [result] }
  let st2 : CombinedState α := { st1 with observablesProp := some result }
  let st3 : CombinedState α := { st2 with valueProp := some result }
  { st3 with delivered := st3.delivered ++ [(result, st3.valueProp)] }

/-- The map stage run over a list of combined emissions, starting from a fresh
subscription: no snapshot allocated, no value yet, component property untouched. -/
def combinedRun (keys : List String) (emissions : List (List α)) : CombinedState α :=
  emissions.foldl (mapStep keys) ⟨[], none, none, []⟩

/-- The whole combined observable of combineComponentObservables for given filtered
keys and a schedule of constituent emissions: combineLatest feeds the map stage. -/
def combineComponentRun (keys : List String) (schedule : List (Nat × α)) :
    CombinedState α :=
  combinedRun keys (combineLatestEmissions schedule (List.replicate keys.length none))

/-- Modelled from the spec: the value produced by the user-supplied function handed to
the async bridge is either promise-like (it exposes a then method and settles with a
payload) or an observable stream with a list of emissions followed by completion. -/
inductive AsyncProduced (α : Type) where
  | promiseLike (payload : α)
  | observableStream (emissions : List α)
  deriving DecidableEq, Repr

/-- The truthiness test promiseOrObservable.then of the source. -/
def hasThen : AsyncProduced α → Bool
  | .promiseLike _ => true
  | .observableStream _ => false

/-- Result of the async bridge: whether the produced value was returned unchanged, and
what the returned promise resolves with (none models a promise that does not resolve
with a stream value, as for an empty stream). -/
structure BridgeOutcome (α : Type) where
  returnedUnchanged : Bool
  resolution : Option α
  deriving DecidableEq, Repr

/-- Modelled from the spec: rxjs toPromise resolves, when the stream completes, with
the last value the stream emitted. -/
def toPromiseResolution (emissions : List α) : Option α :=
  emissions.getLast?

/-- Embedding of the async bridge (olik-ng.module.ts lines 131 to 134): if the
produced value has a then method it is returned unchanged, otherwise it is converted
with toPromise. -/
def asyncBridge : AsyncProduced α → BridgeOutcome α
  | .promiseLike p => ⟨true, some p⟩
  | .observableStream ems => ⟨false, toPromiseResolution ems⟩

/-- Embedding of augementCore (olik-ng.module.ts lines 96 to 99) acting on the
module-level flag coreHasBeenAgmented: given the flag, it returns the new flag and
whether core.augment was executed on this call. -/
def augementCore (coreHasBeenAgmented : Bool) : Bool × Bool :=
  if coreHasBeenAgmented then (coreHasBeenAgmented, false) else (true, true)

/-- The two store-creation entry points; each begins by calling augementCore
(olik-ng.module.ts lines 9 to 17). -/
inductive EntryCall where
  | createApplicationStore
  | createComponentStore
  deriving DecidableEq, Repr

/-- A sequence of entry-point calls threaded through the module-level flag: returns
the final flag and how many times core.augment was executed. -/
def runEntryCalls (flag : Bool) : List EntryCall → Bool × Nat
  | [] => (flag, 0)
  | _ :: rest =>
      let r := augementCore flag
      let k := runEntryCalls r.1 rest
      (k.1, (if r.2 then 1 else 0) + k.2)

/-- A concrete selection used to witness the selection theorem: store state is a
number, the read path is the identity, and two mutations follow the subscription. -/
def exampleSel : Selection Nat Nat :=
  ⟨0, id, [fun n => n + 1, fun n => n * 2]⟩

/-- A concrete component with two stream fields, a plain field and an event emitter,
used to witness the filter theorem. -/
def exampleComponent : Component Nat :=
  ⟨[("obs1", FieldValue.stream), ("plain", FieldValue.plain 5),
    ("obs2", FieldValue.stream), ("ev", FieldValue.emitter)]⟩

/-- Once the running flag is false, no further event is ever emitted and the flag
stays false, whatever actions follow. -/
theorem foldl_futureStep_not_running (f : Future α ε) (rest : List FAction)
    (st : FutureSub α ε) (h : st.running = false) :
    (rest.foldl (futureStep f) st).emitted = st.emitted ∧
      (rest.foldl (futureStep f) st).running = false := by
  induction rest generalizing st with
  | nil => exact ⟨rfl, h⟩
  | cons a rest ih =>
    cases a with
    | unsubscribe =>
      simpa [List.foldl_cons, futureStep] using ih { st with running := false } rfl
    | settle =>
      have := ih (futureStep f st .settle) (by simpa [futureStep] using h)
      simpa [List.foldl_cons, futureStep, h] using this

/-- The committed store value evolves independently of the running flag: two
subscription states sharing a store value keep sharing it under any actions. -/
theorem foldl_futureStep_storeValue (f : Future α ε) (rest : List FAction)
    (s t : FutureSub α ε) (h : s.storeValue = t.storeValue) :
    (rest.foldl (futureStep f) s).storeValue = (rest.foldl (futureStep f) t).storeValue := by
  induction rest generalizing s t with
  | nil => exact h
  | cons a rest ih =>
    cases a with
    | unsubscribe =>
      exact ih { s with running := false } { t with running := false } h
    | settle =>
      exact ih _ _ (by simp [futureStep, h])

/-- C1 counterexample: for a future that settles successfully (pre-update store value
0, resolved payload 1), the subscriber trace of the packaged module consists of the
two status snapshots only; no complete notification is ever delivered, because the
subscribe function of asObservableFuture in olik-ng.module.ts contains no call to
observer.complete. This refutes the part of the claim that says the stream then
completes. -/
theorem future_status_stream_no_complete_cex :
    (futureRun (⟨0, Outcome.resolved 1⟩ : Future Nat Nat) [FAction.settle]).emitted =
      [Event.next ⟨true, false, false, none, 0⟩, Event.next ⟨false, true, false, none, 1⟩] ∧
    Event.complete ∉
      (futureRun (⟨0, Outcome.resolved 1⟩ : Future Nat Nat) [FAction.settle]).emitted := by
  decide

/-- C1 (amended): for every future that settles successfully, subscribing to its
status stream emits an immediate snapshot of the state at subscription time, then
exactly one more snapshot when the future settles, with isLoading false, wasResolved
true, wasRejected false, error none and store value equal to the resolved payload,
for a total of exactly two emissions; the stream does not complete (it stays open
after the second emission). -/
theorem future_status_resolved_two_emissions (f : Future α ε) (v : α)
    (h : f.outcome = Outcome.resolved v) :
    (futureRun f [FAction.settle]).emitted =
      [Event.next f.pendingState, Event.next ⟨false, true, false, none, v⟩] ∧
    Event.complete ∉ (futureRun f [FAction.settle]).emitted := by
  have hs : f.settledState = ⟨false, true, false, none, v⟩ := by
    simp [Future.settledState, h]
  constructor
  · simp [futureRun, futureStep, futureSubInit, hs]
  · simp [futureRun, futureStep, futureSubInit]

/-- Witness for C1 (amended) at the concrete resolved future of the counterexample. -/
theorem future_status_resolved_two_emissions_witness :
    (futureRun (⟨0, Outcome.resolved 1⟩ : Future Nat Nat) [FAction.settle]).emitted =
      [Event.next (⟨0, Outcome.resolved 1⟩ : Future Nat Nat).pendingState,
        Event.next ⟨false, true, false, none, 1⟩] ∧
    Event.complete ∉
      (futureRun (⟨0, Outcome.resolved 1⟩ : Future Nat Nat) [FAction.settle]).emitted :=
  future_status_resolved_two_emissions ⟨0, Outcome.resolved 1⟩ 1 rfl

/-- C5: for every future that rejects, the second snapshot of the status stream has
wasRejected true, wasResolved false, error equal to the rejection reason and store
value equal to the pre-update value (the update did not commit, as the committed
store value also shows); the rejection is surfaced in this snapshot and never as a
stream error notification. -/
theorem future_status_rejected_snapshot (f : Future α ε) (e : ε)
    (h : f.outcome = Outcome.rejected e) :
    (futureRun f [FAction.settle]).emitted =
      [Event.next f.pendingState,
        Event.next ⟨false, false, true, some e, f.preUpdateValue⟩] ∧
    (futureRun f [FAction.settle]).storeValue = f.preUpdateValue ∧
    Event.error ∉ (futureRun f [FAction.settle]).emitted := by
  have hs : f.settledState = ⟨false, false, true, some e, f.preUpdateValue⟩ := by
    simp [Future.settledState, h]
  refine ⟨?_, ?_, ?_⟩
  · simp [futureRun, futureStep, futureSubInit, hs]
  · simp [futureRun, futureStep, futureSubInit, Future.commit, h]
  · simp [futureRun, futureStep, futureSubInit]

/-- Witness for C5 at a concrete rejected future: pre-update value 5, reason 7. -/
theorem future_status_rejected_snapshot_witness :
    (futureRun (⟨5, Outcome.rejected 7⟩ : Future Nat Nat) [FAction.settle]).emitted =
      [Event.next (⟨5, Outcome.rejected 7⟩ : Future Nat Nat).pendingState,
        Event.next ⟨false, false, true, some 7, 5⟩] ∧
    (futureRun (⟨5, Outcome.rejected 7⟩ : Future Nat Nat) [FAction.settle]).storeValue = 5 ∧
    Event.error ∉
      (futureRun (⟨5, Outcome.rejected 7⟩ : Future Nat Nat) [FAction.settle]).emitted :=
  future_status_rejected_snapshot ⟨5, Outcome.rejected 7⟩ 7 rfl

/-- C6: unsubscribing before settlement leaves the subscriber with the initial
snapshot only, whatever happens afterwards (in particular when the future settles
later), and it never cancels the underlying work: the committed store value after any
subsequent actions is exactly what it would have been without the unsubscription,
because the teardown only clears the running flag. -/
theorem future_unsubscribe_stops_emissions_not_work (f : Future α ε)
    (rest : List FAction) :
    (futureRun f (FAction.unsubscribe :: rest)).emitted = [Event.next f.pendingState] ∧
    (futureRun f (FAction.unsubscribe :: rest)).storeValue =
      (futureRun f rest).storeValue := by
  constructor
  · have h := foldl_futureStep_not_running f rest
      (futureStep f (futureSubInit f) FAction.unsubscribe) rfl
    simpa [futureRun, List.foldl_cons, futureStep, futureSubInit] using h.1
  · have h := foldl_futureStep_storeValue f rest
      (futureStep f (futureSubInit f) FAction.unsubscribe) (futureSubInit f) rfl
    simpa [futureRun, List.foldl_cons] using h

theorem statesAfter_length (us : List (σ → σ)) :
    ∀ s : σ, (statesAfter s us).length = us.length := by
  induction us with
  | nil => intro s; rfl
  | cons u rest ih => intro s; simp [statesAfter, ih (u s)]

theorem statesAfter_get? (us : List (σ → σ)) :
    ∀ (s : σ) (i : Nat), i < us.length →
      (statesAfter s us).get? i = some (applyAll s (us.take (i + 1))) := by
  induction us with
  | nil => intro s i h; exact absurd h (by simp)
  | cons u rest ih =>
    intro s i h
    cases i with
    | zero => simp [statesAfter, applyAll]
    | succ j =>
      have hj : j < rest.length := by simpa using h
      have := ih (u s) j hj
      simpa [statesAfter, applyAll] using this

/-- C2: subscribing to the adapted stream of a selection emits the current value
synchronously as the very first emission; after N subsequent mutations exactly N
further emissions occur, the emission following the i-th mutation being exactly the
selected value of the store state reached by the first i mutations (none skipped or
coalesced); and a subscriber arriving only after the first k mutations independently
receives the then-current value first. The same subscribe function is registered for
derivations (olik-ng.module.ts lines 124 to 129), so the statement covers both. -/
theorem selection_observe_emissions (sel : Selection σ α) :
    (observeTrace sel).length = sel.updates.length + 1 ∧
    (observeTrace sel).head? = some (Event.next (sel.select sel.state)) ∧
    (∀ k : Nat, (observeTrace (sel.afterMutations k)).head? =
      some (Event.next (sel.select (applyAll sel.state (sel.updates.take k))))) ∧
    ∀ i : Nat, i < sel.updates.length →
      (observeTrace sel).get? (i + 1) =
        some (Event.next (sel.select (applyAll sel.state (sel.updates.take (i + 1))))) := by
  refine ⟨?_, rfl, fun k => rfl, ?_⟩
  · simp [observeTrace, statesAfter_length]
  · intro i h
    have hg := statesAfter_get? sel.updates sel.state i h
    rw [observeTrace, List.get?_cons_succ, List.get?_map, hg]
    rfl

/-- Witness for C2 at a concrete selection with two mutations: the subscriber first
receives the current value 0, and the emission after the first mutation is 1. -/
theorem selection_observe_emissions_witness :
    (observeTrace exampleSel).head? = some (Event.next 0) ∧
    (observeTrace exampleSel).get? 1 = some (Event.next 1) := by
  constructor
  · exact ((selection_observe_emissions exampleSel).2.1).trans (by rfl)
  · exact ((selection_observe_emissions exampleSel).2.2.2 0 (by decide)).trans (by rfl)

/-- C8: a key appears among the observable members collected by
combineComponentObservables exactly when the component holds under that key a value
that is an Observable and not an EventEmitter; plain values and event emitters never
contribute a key. Moreover the snapshot object built from those keys has exactly
those keys. -/
theorem snapshot_keys_are_observable_members (c : Component α) :
    (∀ k : String, k ∈ keysOfObservableMembers c ↔
      ∃ v, (k, v) ∈ c.fields ∧ instanceofObservable v = true ∧
        instanceofEventEmitter v = false) ∧
    ∀ values : List α, values.length = (keysOfObservableMembers c).length →
      (buildSnapshot (keysOfObservableMembers c) values).map Prod.fst =
        keysOfObservableMembers c := by
  constructor
  · intro k
    simp only [keysOfObservableMembers, List.mem_map, List.mem_filter]
    constructor
    · rintro ⟨⟨k2, v⟩, ⟨hmem, hfilt⟩, rfl⟩
      simp only [Bool.and_eq_true, Bool.not_eq_true'] at hfilt
      exact ⟨v, by simpa using hmem, hfilt.1, hfilt.2⟩
    · rintro ⟨v, hmem, h1, h2⟩
      exact ⟨(k, v), ⟨hmem, by simp [h1, h2]⟩, rfl⟩
  · intro values h
    exact List.map_fst_zip _ _ (le_of_eq h.symm)

/-- Witness for C8 at a concrete component with two stream fields, one plain field
and one event emitter. -/
theorem snapshot_keys_are_observable_members_witness :
    "obs1" ∈ keysOfObservableMembers exampleComponent ∧
    (buildSnapshot (keysOfObservableMembers exampleComponent) [10, 20]).map Prod.fst =
      keysOfObservableMembers exampleComponent := by
  constructor
  · exact ((snapshot_keys_are_observable_members exampleComponent).1 "obs1").mpr
      ⟨FieldValue.stream, by decide, rfl, rfl⟩
  · exact (snapshot_keys_are_observable_members exampleComponent).2 [10, 20] (by decide)

theorem runEntryCalls_true (calls : List EntryCall) :
    runEntryCalls true calls = (true, 0) := by
  induction calls with
  | nil => rfl
  | cons a rest ih => simpa [runEntryCalls, augementCore] using ih

/-- C7: across any sequence of calls to the store-creation entry points, core.augment
executes at most once; once the flag is set it stays set and no further execution
happens; and any nonempty call sequence starting from the fresh process state leaves
the flag set with exactly one execution of core.augment. -/
theorem augement_core_at_most_once (calls : List EntryCall) :
    (runEntryCalls false calls).2 ≤ 1 ∧
    runEntryCalls true calls = (true, 0) ∧
    (calls ≠ [] → runEntryCalls false calls = (true, 1)) := by
  refine ⟨?_, runEntryCalls_true calls, ?_⟩
  · cases calls with
    | nil => simp [runEntryCalls]
    | cons a rest => simp [runEntryCalls, augementCore, runEntryCalls_true rest]
  · intro h
    cases calls with
    | nil => exact absurd rfl h
    | cons a rest => simp [runEntryCalls, augementCore, runEntryCalls_true rest]

/-- Witness for C7 at the concrete call sequence of one application store followed by
one component store: core.augment runs exactly once. -/
theorem augement_core_at_most_once_witness :
    runEntryCalls false [EntryCall.createApplicationStore, EntryCall.createComponentStore] =
      (true, 1) :=
  (augement_core_at_most_once _).2.2 (by decide)

/-- C4: a promise-like value produced by the user-supplied function passes the then
test and is returned unchanged by the async bridge, settling with its own payload; a
produced observable stream fails the then test and is converted with toPromise, and
when the stream emits exactly one value before completing, the returned promise
resolves with that first emission. -/
theorem async_bridge_behavior (v : α) (ems : List α) (h : ems = [v]) :
    hasThen (AsyncProduced.promiseLike v) = true ∧
    asyncBridge (AsyncProduced.promiseLike v) = ⟨true, some v⟩ ∧
    hasThen (AsyncProduced.observableStream ems) = false ∧
    (asyncBridge (AsyncProduced.observableStream ems)).returnedUnchanged = false ∧
    (asyncBridge (AsyncProduced.observableStream ems)).resolution = ems.head? := by
  subst h
  exact ⟨rfl, rfl, rfl, rfl, rfl⟩

/-- Witness for C4 at the payload 4 and the one-element stream emitting 4. -/
theorem async_bridge_behavior_witness :
    hasThen (AsyncProduced.promiseLike 4) = true ∧
    asyncBridge (AsyncProduced.promiseLike 4) = ⟨true, some 4⟩ ∧
    hasThen (AsyncProduced.observableStream [4]) = false ∧
    (asyncBridge (AsyncProduced.observableStream [4])).returnedUnchanged = false ∧
    (asyncBridge (AsyncProduced.observableStream ([4] : List Nat))).resolution = [4].head? :=
  async_bridge_behavior 4 [4] rfl

/-- If some slot of the latest array holds none and no scheduled emission targets
that slot, combineLatest emits nothing. -/
theorem combineLatest_no_emission (j : Nat) (sched : List (Nat × α)) :
    ∀ latest : List (Option α), latest.get? j = some none →
      (∀ p ∈ sched, p.1 ≠ j) → combineLatestEmissions sched latest = [] := by
  induction sched with
  | nil => intro latest _ _; rfl
  | cons p rest ih =>
    rintro latest hj hall
    obtain ⟨i, v⟩ := p
    have hij : i ≠ j := hall (i, v) (by simp)
    have hj2 : (latest.set i (some v)).get? j = some none :=
      (List.get?_set_ne _ _ hij).trans hj
    have hmem : (none : Option α) ∈ latest.set i (some v) := List.get?_mem hj2
    have hfalse : ((latest.set i (some v)).all Option.isSome) = false := by
      cases hb : (latest.set i (some v)).all Option.isSome with
      | false => rfl
      | true =>
        have := List.all_eq_true.mp hb none hmem
        simp at this
    have hrest := ih (latest.set i (some v)) hj2
      (fun q hq => hall q (List.mem_cons_of_mem _ hq))
    simp [combineLatestEmissions, hfalse, hrest]

/-- Every downstream delivery of the map stage is recorded together with a value
property equal to the delivered snapshot, because the source assigns the value
property before returning the snapshot. -/
theorem delivered_sees_value (keys : List String) (ems : List (List α)) :
    ∀ st : CombinedState α, (∀ q ∈ st.delivered, q.2 = some q.1) →
      ∀ q ∈ (ems.foldl (mapStep keys) st).delivered, q.2 = some q.1 := by
  induction ems with
  | nil => intro st h; exact h
  | cons values rest ih =>
    intro st h
    refine ih (mapStep keys st values) ?_
    intro q hq
    simp only [mapStep, List.mem_append, List.mem_singleton] at hq
    rcases hq with hq | hq
    · exact h q hq
    · subst hq; rfl

/-- C3: for constituents A emitting a then b and B emitting b (schedule: A emits a,
then B emits b, then A emits b), the combined stream delivers exactly the snapshot
assigning a to A and b to B followed by the snapshot assigning b to both, the
synchronously readable value property ends equal to the last delivered snapshot,
every delivery sees a value property already equal to the delivered snapshot (the
snapshot is written before the emission goes downstream), and no delivery at all
happens on any schedule in which some constituent has not yet emitted. -/
theorem combine_component_sequence :
    ((combineComponentRun ["A", "B"] [(0, "a"), (1, "b"), (0, "b")]).delivered.map
        Prod.fst =
      [[("A", "a"), ("B", "b")], [("A", "b"), ("B", "b")]]) ∧
    ((combineComponentRun ["A", "B"] [(0, "a"), (1, "b"), (0, "b")]).valueProp =
      some [("A", "b"), ("B", "b")]) ∧
    (∀ (keys : List String) (ems : List (List String)) (i : Nat)
        (snap : List (String × String)) (vp : Option (List (String × String))),
      ((combinedRun keys ems).delivered.get? i) = some (snap, vp) → vp = some snap) ∧
    (∀ (sched : List (Nat × String)) (j : Nat), j < 2 → (∀ p ∈ sched, p.1 ≠ j) →
      (combineComponentRun ["A", "B"] sched).delivered = []) := by
  refine ⟨by rfl, by rfl, ?_, ?_⟩
  · intro keys ems i snap vp h
    have hmem : (snap, vp) ∈ (combinedRun keys ems).delivered := List.get?_mem h
    exact delivered_sees_value keys ems _ (by intro q hq; simp at hq) (snap, vp) hmem
  · intro sched j hj hall
    have hinit : (List.replicate (["A", "B"].length) (none : Option String)).get? j =
        some none := by
      interval_cases j <;> rfl
    have hzero : combineLatestEmissions sched
        (List.replicate (["A", "B"].length) (none : Option String)) = [] :=
      combineLatest_no_emission j sched _ hinit hall
    unfold combineComponentRun
    rw [hzero]
    rfl

/-- Witness for C3: the value property at the first delivery of the concrete run
equals the delivered snapshot, and the schedule in which only A has emitted delivers
nothing. -/
theorem combine_component_sequence_witness :
    (some [("A", "a"), ("B", "b")] : Option (List (String × String))) =
      some [("A", "a"), ("B", "b")] ∧
    (combineComponentRun ["A", "B"] [((0 : Nat), "a")]).delivered = [] := by
  constructor
  · exact combine_component_sequence.2.2.1 ["A", "B"]
      (combineLatestEmissions [(0, "a"), (1, "b"), (0, "b")]
        (List.replicate 2 (none : Option String)))
      0 [("A", "a"), ("B", "b")] (some [("A", "a"), ("B", "b")]) (by rfl)
  · exact combine_component_sequence.2.2.2 [(0, "a")] 1 (by decide) (by decide)

/-- The snapshots heap always lists exactly the delivered snapshots in order. -/
theorem snapshots_eq_delivered (keys : List String) (ems : List (List α)) :
    ∀ st : CombinedState α, st.snapshots = st.delivered.map Prod.fst →
      (ems.foldl (mapStep keys) st).snapshots =
        ((ems.foldl (mapStep keys) st).delivered).map Prod.fst := by
  induction ems with
  | nil => intro st h; exact h
  | cons values rest ih =>
    intro st h
    exact ih (mapStep keys st values) (by simp [mapStep, h])

/-- Processing further emissions only appends new snapshot objects to the heap; the
objects already allocated are left exactly as they were. -/
theorem snapshots_monotone (keys : List String) (ems : List (List α)) :
    ∀ st : CombinedState α,
      ((ems.foldl (mapStep keys) st).snapshots).take st.snapshots.length =
        st.snapshots := by
  induction ems with
  | nil =>
    intro st
    show st.snapshots.take st.snapshots.length = st.snapshots
    simp
  | cons values rest ih =>
    intro st
    have hlen : (mapStep keys st values).snapshots =
        st.snapshots ++ [buildSnapshot keys values] := by
      simp [mapStep]
    have hmin : st.snapshots.length ≤ (mapStep keys st values).snapshots.length := by
      simp [hlen]
    calc ((rest.foldl (mapStep keys) (mapStep keys st values)).snapshots).take
          st.snapshots.length
        = (((rest.foldl (mapStep keys) (mapStep keys st values)).snapshots).take
            (mapStep keys st values).snapshots.length).take st.snapshots.length := by
          rw [List.take_take, Nat.min_eq_left hmin]
      _ = ((mapStep keys st values).snapshots).take st.snapshots.length := by
          rw [ih (mapStep keys st values)]
      _ = st.snapshots := by
          rw [hlen, List.take_append_of_le_length (Nat.le_refl _), List.take_length]

/-- C9: the snapshot published on each emission is a freshly allocated object: the
heap of snapshot objects lists exactly the delivered snapshots, and running any
further emissions leaves every previously allocated snapshot object unchanged, so a
previously emitted or read snapshot is never mutated by later emissions. -/
theorem snapshot_replaced_wholesale (keys : List String) (ems ems2 : List (List α)) :
    (combinedRun keys ems).snapshots =
      ((combinedRun keys ems).delivered).map Prod.fst ∧
    ((combinedRun keys (ems ++ ems2)).snapshots).take
        (combinedRun keys ems).snapshots.length =
      (combinedRun keys ems).snapshots := by
  constructor
  · exact snapshots_eq_delivered keys ems _ rfl
  · have hsplit : combinedRun keys (ems ++ ems2) =
        ems2.foldl (mapStep keys) (combinedRun keys ems) := by
      simp [combinedRun, List.foldl_append]
    rw [hsplit]
    exact snapshots_monotone keys ems2 (combinedRun keys ems)

/-- The dollar-observables property of the component always equals the most recently
delivered snapshot (none before any delivery) and always equals the value property. -/
theorem observables_invariant (keys : List String) (ems : List (List α)) :
    ∀ st : CombinedState α,
      st.observablesProp = (st.delivered.map Prod.fst).getLast? →
      st.observablesProp = st.valueProp →
      (ems.foldl (mapStep keys) st).observablesProp =
          (((ems.foldl (mapStep keys) st).delivered).map Prod.fst).getLast? ∧
        (ems.foldl (mapStep keys) st).observablesProp =
          (ems.foldl (mapStep keys) st).valueProp := by
  induction ems with
  | nil => intro st h1 h2; exact ⟨h1, h2⟩
  | cons values rest ih =>
    intro st h1 h2
    refine ih (mapStep keys st values) ?_ ?_
    · simp [mapStep, List.getLast?_concat]
    · simp [mapStep]

/-- C10: on every emission the combiner writes the new snapshot object to the
dollar-observables property of the component instance itself: after any sequence of
combined emissions the component property equals the most recently delivered
snapshot, and it always agrees with the value property of the returned stream. -/
theorem component_observables_property_written (keys : List String)
    (ems : List (List α)) :
    (combinedRun keys ems).observablesProp =
      (((combinedRun keys ems).delivered).map Prod.fst).getLast? ∧
    (combinedRun keys ems).observablesProp = (combinedRun keys ems).valueProp :=
  observables_invariant keys ems _ rfl rfl

end OlikNg
